import Mathlib

/- Verification of the sailfish HTML escaping engine
   (src/sailfish/src/runtime/escape/mod.rs): classification tables,
   scanner tiers, and the runtime dispatch mechanism. -/

namespace Sailfish

set_option maxRecDepth 8192

/-- The 256-entry classification table `ESCAPE_LUT` from
src/runtime/escape/mod.rs lines 17-28, transcribed entry for entry.
Value 9 is the NoEscape sentinel; values 0-4 index `ESCAPED`. -/
def ESCAPE_LUT : List Nat := [
  9, 9, 9, 9, 9, 9, 9, 9, 9, 9, 9, 9, 9, 9, 9, 9, 9, 9, 9, 9, 9, 9, 9, 9, 9, 9, 9, 9,
  9, 9, 9, 9, 9, 9, 0, 9, 9, 9, 1, 2, 9, 9, 9, 9, 9, 9, 9, 9, 9, 9, 9, 9, 9, 9, 9, 9,
  9, 9, 9, 9, 3, 9, 4, 9, 9, 9, 9, 9, 9, 9, 9, 9, 9, 9, 9, 9, 9, 9, 9, 9, 9, 9, 9, 9,
  9, 9, 9, 9, 9, 9, 9, 9, 9, 9, 9, 9, 9, 9, 9, 9, 9, 9, 9, 9, 9, 9, 9, 9, 9, 9, 9, 9,
  9, 9, 9, 9, 9, 9, 9, 9, 9, 9, 9, 9, 9, 9, 9, 9, 9, 9, 9, 9, 9, 9, 9, 9, 9, 9, 9, 9,
  9, 9, 9, 9, 9, 9, 9, 9, 9, 9, 9, 9, 9, 9, 9, 9, 9, 9, 9, 9, 9, 9, 9, 9, 9, 9, 9, 9,
  9, 9, 9, 9, 9, 9, 9, 9, 9, 9, 9, 9, 9, 9, 9, 9, 9, 9, 9, 9, 9, 9, 9, 9, 9, 9, 9, 9,
  9, 9, 9, 9, 9, 9, 9, 9, 9, 9, 9, 9, 9, 9, 9, 9, 9, 9, 9, 9, 9, 9, 9, 9, 9, 9, 9, 9,
  9, 9, 9, 9, 9, 9, 9, 9, 9, 9, 9, 9, 9, 9, 9, 9, 9, 9, 9, 9, 9, 9, 9, 9, 9, 9, 9, 9,
  9, 9, 9, 9]

/-- The five entity strings `ESCAPED` (mod.rs line 30), in source order. -/
def ESCAPED : List String := ["&quot;", "&amp;", "&#039;", "&lt;", "&gt;"]

/-- The constant `ESCAPED_LEN` (mod.rs line 31). -/
def ESCAPED_LEN : Nat := 5

/-- Classification of one byte value: lookup in `ESCAPE_LUT`, with the
sentinel 9 as default for indices past the table (a u8 index is always in
range, so the default is never reached for byte values). -/
def escapeLut (b : Nat) : Nat := ESCAPE_LUT.getD b 9

/-- A byte is a signal byte when its classification is a valid index into
`ESCAPED`, i.e. strictly below `ESCAPED_LEN`. -/
def isSig (b : Nat) : Bool := escapeLut b < ESCAPED_LEN

/-- UTF-8 bytes of an ASCII string, as naturals. Every entity string is
pure ASCII, so code points and UTF-8 bytes coincide. -/
def strBytes (s : String) : List Nat := s.data.map Char.toNat

/-- The entity byte sequence substituted for a signal byte b. -/
def entityBytes (b : Nat) : List Nat := strBytes (ESCAPED.getD (escapeLut b) "")

/-- Modelled from the spec: the reference scanner (module `naive`, whose
source file is absent from src/). Ground-truth semantics per spec section 4.2:
walk the input byte by byte, copy non-signal bytes verbatim, and substitute
the matching entity at each signal byte; the pending-run bookkeeping
described by the spec changes only the granularity of buffer appends, not
the appended byte sequence. -/
def naive_escape : List Nat → List Nat
  | [] => []
  | b :: rest =>
      if isSig b then entityBytes b ++ naive_escape rest
      else b :: naive_escape rest

/-- Modelled from the spec: a generic chunk-at-a-time scanner with chunk
width w (spec sections 4.3-4.4; the modules `fallback`, `sse2` and `avx2`
are absent from src/). Each step inspects one chunk of up to w bytes (the
final chunk may be shorter, the masked tail): if no signal byte is present
the whole chunk is flushed verbatim and scanning advances by the chunk
width; otherwise the run up to the first signal byte is flushed, that
byte's entity is emitted, and scanning resumes just past it, on the
remaining chunk followed by the rest of the input. The degenerate width 0
delegates to byte-wise scanning. -/
def chunked_escape (w : Nat) (input : List Nat) : List Nat :=
  if hw : w = 0 then naive_escape input
  else if hn : input = [] then []
  else
    match hm : (input.take w).dropWhile (fun b => !(isSig b)) with
    | [] => input.take w ++ chunked_escape w (input.drop w)
    | b :: t =>
        (input.take w).takeWhile (fun b => !(isSig b)) ++ entityBytes b
          ++ chunked_escape w (t ++ input.drop w)
termination_by input.length
decreasing_by
  · have h1 : 0 < input.length := List.length_pos.mpr hn
    simp only [List.length_drop]
    omega
  · have h1 : 0 < input.length := List.length_pos.mpr hn
    have h2 : (input.take w).takeWhile (fun b => !(isSig b)) ++ (b :: t)
        = input.take w := by
      rw [← hm]; exact List.takeWhile_append_dropWhile _ _
    have h3 := congrArg List.length h2
    simp only [List.length_append, List.length_cons, List.length_take] at h3
    simp only [List.length_append, List.length_drop]
    omega

/-- Modelled from the spec: the widest vector tier (module `avx2`, absent
from src/), chunk width 32 bytes. -/
def avx2_escape (input : List Nat) : List Nat := chunked_escape 32 input

/-- Modelled from the spec: the narrower vector tier (module `sse2`, absent
from src/), chunk width 16 bytes. -/
def sse2_escape (input : List Nat) : List Nat := chunked_escape 16 input

/-- Modelled from the spec: the portable scalar tier (module `fallback`,
absent from src/), testing machine-word sized chunks of 8 bytes. -/
def fallback_escape (input : List Nat) : List Nat := chunked_escape 8 input

/-- Escaping distributes over list append. -/
theorem naive_escape_append (a c : List Nat) :
    naive_escape (a ++ c) = naive_escape a ++ naive_escape c := by
  induction a with
  | nil => simp [naive_escape]
  | cons b rest ih =>
      cases h : isSig b <;> simp [naive_escape, h, ih]

/-- A list of non-signal bytes is copied verbatim. -/
theorem naive_escape_clean (l : List Nat) (h : ∀ x ∈ l, isSig x = false) :
    naive_escape l = l := by
  induction l with
  | nil => rfl
  | cons b rest ih =>
      have hb := h b (by simp)
      simp [naive_escape, hb, ih fun x hx => h x (List.mem_cons_of_mem _ hx)]

/-- The first element surviving dropWhile falsifies the predicate. -/
theorem dropWhile_head_false {p : Nat → Bool} :
    ∀ {l : List Nat} {b t}, l.dropWhile p = b :: t → p b = false := by
  intro l
  induction l with
  | nil => intro b t h; simp [List.dropWhile] at h
  | cons a rest ih =>
      intro b t h
      rw [List.dropWhile_cons] at h
      cases ha : p a
      · rw [ha] at h
        simp only [Bool.false_eq_true, if_false] at h
        cases h
        exact ha
      · rw [ha] at h
        simp only [if_true] at h
        exact ih h

/-- Every element of takeWhile satisfies the predicate. -/
theorem mem_takeWhile_pred {p : Nat → Bool} :
    ∀ {l : List Nat} {x}, x ∈ l.takeWhile p → p x = true := by
  intro l
  induction l with
  | nil => intro x h; simp [List.takeWhile] at h
  | cons a rest ih =>
      intro x h
      rw [List.takeWhile_cons] at h
      cases ha : p a
      · rw [ha] at h
        simp only [Bool.false_eq_true, if_false] at h
        exact absurd h (List.not_mem_nil x)
      · rw [ha] at h
        simp only [if_true, List.mem_cons] at h
        rcases h with rfl | h
        · exact ha
        · exact ih h

/-- Every chunked scanner computes the reference scanner's output. -/
theorem chunked_eq_naive (w : Nat) (input : List Nat) :
    chunked_escape w input = naive_escape input := by
  induction input using chunked_escape.induct w with
  | case1 x hw => rw [chunked_escape]; simp [hw]
  | case2 hw => rw [chunked_escape]; simp [hw, naive_escape]
  | case3 x hw hn hm ih =>
      rw [chunked_escape]
      simp only [dif_neg hw, dif_neg hn]
      split
      · have hclean : ∀ y ∈ x.take w, isSig y = false := by
          intro y hy
          have h2 := List.dropWhile_eq_nil_iff.mp hm y hy
          simpa using h2
        calc x.take w ++ chunked_escape w (x.drop w)
            = x.take w ++ naive_escape (x.drop w) := by rw [ih]
          _ = naive_escape (x.take w) ++ naive_escape (x.drop w) := by
                rw [naive_escape_clean _ hclean]
          _ = naive_escape (x.take w ++ x.drop w) := (naive_escape_append _ _).symm
          _ = naive_escape x := by rw [List.take_append_drop]
      · rename_i b1 t1 heq
        rw [hm] at heq
        exact absurd heq (by simp)
  | case4 x hw hn b t hm ih =>
      rw [chunked_escape]
      simp only [dif_neg hw, dif_neg hn]
      split
      · rename_i heq
        rw [hm] at heq
        exact absurd heq (by simp)
      · rename_i b1 t1 heq
        rw [hm] at heq
        injection heq with h5 h6
        subst h5; subst h6
        have hrun : (x.take w).takeWhile (fun y => !(isSig y)) ++ (b :: t) = x.take w := by
          rw [← hm]; exact List.takeWhile_append_dropWhile _ _
        have hx : x = (x.take w).takeWhile (fun y => !(isSig y)) ++ b :: (t ++ x.drop w) := by
          conv_lhs => rw [← List.take_append_drop w x, ← hrun]
          simp
        have hb : isSig b = true := by
          have h2 := dropWhile_head_false hm
          simpa using h2
        have hclean : ∀ y ∈ (x.take w).takeWhile (fun y => !(isSig y)), isSig y = false := by
          intro y hy
          have h2 := mem_takeWhile_pred hy
          simpa using h2
        conv_rhs => rw [hx]
        rw [naive_escape_append, naive_escape_clean _ hclean]
        simp [naive_escape, hb, ih]

/-- Hardware capability flags, the environment probed by
is_x86_feature_detected in mod.rs lines 43-45. -/
structure Caps where
  avx2 : Bool
  sse2 : Bool

/-- The three scanner tiers the selector can publish (mod.rs lines 43-49). -/
inductive Tier where
  | avx2
  | sse2
  | fallback

/-- The input-to-appended-bytes function of each tier. -/
def tierFn : Tier → List Nat → List Nat
  | Tier.avx2 => avx2_escape
  | Tier.sse2 => sse2_escape
  | Tier.fallback => fallback_escape

/-- A value storable in the atomic dispatch slot FN: the default escape
selector (the slot's initial value, mod.rs line 33), one of the three tier
scanners, or a host-registered scanner function. Scanner functions are
modelled, per the spec's ScannerFunction contract, as pure maps from input
bytes to appended bytes. -/
inductive Slot where
  | selector
  | tier (t : Tier)
  | custom (f : List Nat → List Nat)

/-- The mutable process state: the contents of the dispatch slot FN. -/
structure DispatchState where
  slot : Slot

/-- Initial state: FN holds the default escape function itself
(mod.rs line 33). -/
def initState : DispatchState := DispatchState.mk Slot.selector

/-- Capability probe order of the default escape function (mod.rs lines
43-49): avx2 first, then sse2, else the portable fallback. -/
def select (c : Caps) : Tier :=
  if c.avx2 then Tier.avx2 else if c.sse2 then Tier.sse2 else Tier.fallback

/-- The default escape entry point (mod.rs lines 41-53): probe
capabilities, store the chosen scanner into FN, and run that scanner on
this very call. State passing models the FN store; the returned list is
the buffer contents after the call. -/
def escape (c : Caps) (feed : List Nat) (buf : List Nat)
    (st : DispatchState) : DispatchState × List Nat :=
  (DispatchState.mk (Slot.tier (select c)), buf ++ tierFn (select c) feed)

/-- register_escape_fn (mod.rs lines 55-57): store a host-supplied scanner
function into FN. -/
def register_escape_fn (f : List Nat → List Nat)
    (st : DispatchState) : DispatchState :=
  DispatchState.mk (Slot.custom f)

/-- escape_to_buf (mod.rs lines 59-65): load FN and invoke the stored
function on the feed and buffer. When the slot still holds the initial
selector, that call is the default escape function and performs
detection; otherwise the stored scanner runs directly. -/
def escape_to_buf (c : Caps) (feed buf : List Nat)
    (st : DispatchState) : DispatchState × List Nat :=
  match st.slot with
  | Slot.selector => escape c feed buf st
  | Slot.tier t => (st, buf ++ tierFn t feed)
  | Slot.custom f => (st, buf ++ f feed)

/-- escape_to_string (mod.rs lines 78-86): swap the destination string
into a Buffer, append the escaped feed via escape_to_buf, and swap the
accumulated contents back. The Buffer type is modelled from the spec (its
module is absent from src/): a growable byte store, so Buffer::from keeps
the string's bytes and into_string hands them all back. -/
def escape_to_string (c : Caps) (feed s : List Nat)
    (st : DispatchState) : DispatchState × List Nat :=
  escape_to_buf c feed s st

/-- A sequence of escape_to_buf calls from empty buffers, threading the
dispatch state; returns the final state and each call's output. -/
def run_calls (c : Caps) (feeds : List (List Nat))
    (st : DispatchState) : DispatchState × List (List Nat) :=
  match feeds with
  | [] => (st, [])
  | feed :: rest =>
      let r := escape_to_buf c feed [] st
      let r2 := run_calls c rest r.1
      (r2.1, r.2 :: r2.2)

/-- Every tier the dispatcher can select computes the reference output. -/
theorem tierFn_eq_naive (t : Tier) (input : List Nat) :
    tierFn t input = naive_escape input := by
  cases t <;>
    simp [tierFn, avx2_escape, sse2_escape, fallback_escape, chunked_eq_naive]

/-- A byte value at or past 63 classifies as the NoEscape sentinel. -/
theorem escapeLut_high (b : Nat) (h : 63 ≤ b) : escapeLut b = 9 := by
  by_cases h2 : b < 256
  · have h3 : ∀ x : Fin 256, 63 ≤ x.val → escapeLut x.val = 9 := by decide
    exact h3 ⟨b, h2⟩ h
  · have h4 : ESCAPE_LUT.length ≤ b := by
      have : ESCAPE_LUT.length = 256 := by decide
      omega
    unfold escapeLut
    rw [List.getD_eq_getElem?_getD, List.getElem?_eq_none h4]
    rfl

/-- A byte value at or past 63 is not a signal byte. -/
theorem isSig_high_false (b : Nat) (h : 63 ≤ b) : isSig b = false := by
  simp [isSig, escapeLut_high b h, ESCAPED_LEN]

/-- C1: for every input string, escaping with each implementation tier
(avx2, sse2, fallback) produces a byte sequence identical to escaping it
with the reference scanner. -/
theorem escape_tiers_eq_reference (input : List Nat) :
    avx2_escape input = naive_escape input
    ∧ sse2_escape input = naive_escape input
    ∧ fallback_escape input = naive_escape input :=
  ⟨chunked_eq_naive 32 input, chunked_eq_naive 16 input, chunked_eq_naive 8 input⟩

/-- C2: escaping each of the five signal characters alone yields exactly
its fixed entity, through the default escape entry point, for every
capability combination and prior dispatch state. -/
theorem escape_signal_chars_fixed_mapping (c : Caps) (st : DispatchState) :
    (escape c (strBytes "\"") [] st).2 = strBytes "&quot;"
    ∧ (escape c (strBytes "&") [] st).2 = strBytes "&amp;"
    ∧ (escape c (strBytes "'") [] st).2 = strBytes "&#039;"
    ∧ (escape c (strBytes "<") [] st).2 = strBytes "&lt;"
    ∧ (escape c (strBytes ">") [] st).2 = strBytes "&gt;" := by
  refine ⟨?_, ?_, ?_, ?_, ?_⟩ <;>
    · simp only [escape, tierFn_eq_naive, List.nil_append]
      decide

/-- C3: after register_escape_fn stores a scanner function into the
dispatch slot, every subsequent escape_to_buf call uses that scanner, and
each call leaves the slot unchanged, so the scanner stays in effect until
the slot is overridden again. -/
theorem register_escape_fn_dispatch (c : Caps) (f : List Nat → List Nat)
    (st : DispatchState) (feeds : List (List Nat)) :
    run_calls c feeds (register_escape_fn f st)
      = (register_escape_fn f st, feeds.map f) := by
  induction feeds with
  | nil => rfl
  | cons feed rest ih =>
      simp only [register_escape_fn] at ih ⊢
      simp [run_calls, escape_to_buf, ih]

/-- C4: the default escape entry point probes capabilities with the fixed
precedence avx2, then sse2, then the portable fallback, publishes the
selected tier into the dispatch slot, and uses the just-selected tier on
that same call; with no accelerated capability it selects the portable
fallback and still succeeds. -/
theorem escape_selector_precedence (c : Caps) (st : DispatchState)
    (feed buf : List Nat) (b : Bool) :
    (escape c feed buf st).1 = DispatchState.mk (Slot.tier (select c))
    ∧ (escape c feed buf st).2 = buf ++ tierFn (select c) feed
    ∧ select (Caps.mk true b) = Tier.avx2
    ∧ select (Caps.mk false true) = Tier.sse2
    ∧ select (Caps.mk false false) = Tier.fallback :=
  ⟨rfl, rfl, rfl, rfl, rfl⟩

/-- C5: once the first call through the dispatch slot has published an
implementation, a later escaping call leaves the slot unchanged and its
output is determined by the tier published on first use alone; the
capabilities visible at the later call are never consulted again. -/
theorem escape_to_buf_no_redetection (c c2 : Caps)
    (feed buf feed2 buf2 : List Nat) :
    (escape_to_buf c2 feed2 buf2 (escape_to_buf c feed buf initState).1).1
        = (escape_to_buf c feed buf initState).1
    ∧ (escape_to_buf c2 feed2 buf2 (escape_to_buf c feed buf initState).1).2
        = buf2 ++ tierFn (select c) feed2 :=
  ⟨rfl, rfl⟩

/-- C6: classification is total on byte values: each of the five signal
bytes maps to the index of its fixed entity in ESCAPED, and every other
byte value, continuation bytes included, maps to the NoEscape sentinel 9. -/
theorem escape_lut_classification :
    (∀ b : Fin 256, escapeLut b.val =
      if b.val = 34 then 0 else if b.val = 38 then 1 else if b.val = 39 then 2
      else if b.val = 60 then 3 else if b.val = 62 then 4 else 9)
    ∧ ESCAPED.getD (escapeLut 34) "" = "&quot;"
    ∧ ESCAPED.getD (escapeLut 38) "" = "&amp;"
    ∧ ESCAPED.getD (escapeLut 39) "" = "&#039;"
    ∧ ESCAPED.getD (escapeLut 60) "" = "&lt;"
    ∧ ESCAPED.getD (escapeLut 62) "" = "&gt;" := by
  refine ⟨by decide, by decide, by decide, by decide, by decide, by decide⟩

/-- C7: on an input containing no signal byte the default escape entry
point appends the input unchanged, and on the empty input it appends
nothing. -/
theorem escape_clean_input_unchanged (c : Caps) (st : DispatchState)
    (buf input : List Nat) (h : input.all (fun b => !(isSig b)) = true) :
    (escape c input buf st).2 = buf ++ input
    ∧ (escape c [] buf st).2 = buf := by
  constructor
  · simp only [escape, tierFn_eq_naive]
    rw [naive_escape_clean]
    intro x hx
    have h2 := List.all_eq_true.mp h x hx
    simpa using h2
  · simp [escape, tierFn_eq_naive, naive_escape]

/-- Witness for escape_clean_input_unchanged at the clean input abc with
prior buffer contents. -/
theorem escape_clean_input_unchanged_witness :
    ([97, 98, 99].all (fun b => !(isSig b)) = true)
    ∧ ((escape (Caps.mk false false) [97, 98, 99] [100] initState).2
          = [100] ++ [97, 98, 99]
        ∧ (escape (Caps.mk false false) [] [100] initState).2 = [100]) :=
  ⟨by decide,
    escape_clean_input_unchanged (Caps.mk false false) initState [100]
      [97, 98, 99] (by decide)⟩

/-- C8: the bytes of a non-signal multi-byte character (all at or above
128, hence never signal bytes) pass through the default escape entry
point byte-for-byte as one contiguous block: the surrounding pieces are
escaped independently around the unchanged character, so no substitution
boundary falls inside it. -/
theorem escape_multibyte_passthrough (c : Caps) (st : DispatchState)
    (buf pre ch suf : List Nat) (h : ch.all (fun b => 128 ≤ b) = true) :
    (escape c (pre ++ ch ++ suf) buf st).2
      = buf ++ (naive_escape pre ++ (ch ++ naive_escape suf)) := by
  have hclean : ∀ x ∈ ch, isSig x = false := by
    intro x hx
    have h2 : 128 ≤ x := by
      have h3 := List.all_eq_true.mp h x hx
      simpa using h3
    exact isSig_high_false x (by omega)
  simp only [escape, tierFn_eq_naive, naive_escape_append]
  rw [naive_escape_clean _ hclean]
  simp

/-- Witness for escape_multibyte_passthrough: the three bytes of a CJK
character between two signal bytes. -/
theorem escape_multibyte_passthrough_witness :
    ([230, 188, 162].all (fun b => 128 ≤ b) = true)
    ∧ (escape (Caps.mk true true) ([60] ++ [230, 188, 162] ++ [62]) [] initState).2
        = [] ++ (naive_escape [60] ++ ([230, 188, 162] ++ naive_escape [62])) :=
  ⟨by decide,
    escape_multibyte_passthrough (Caps.mk true true) initState [] [60]
      [230, 188, 162] [62] (by decide)⟩

/-- C9: escape_to_string appends rather than replaces: the destination's
prior contents survive unchanged as a prefix of the result, followed by
exactly the bytes that escaping the feed into an empty destination
produces. -/
theorem escape_to_string_appends (c : Caps) (st : DispatchState)
    (feed s : List Nat) :
    (escape_to_string c feed s st).2
      = s ++ (escape_to_string c feed [] st).2 := by
  cases st with
  | mk slot => cases slot <;> simp [escape_to_string, escape_to_buf, escape]

/-- C10: every entry of the 256-entry classification table is either the
sentinel 9 or an index strictly below ESCAPED_LEN, and ESCAPED_LEN is the
length of the entity table, so a non-sentinel classification always
indexes ESCAPED in bounds. -/
theorem escape_lut_entries_in_bounds :
    (∀ i : Fin 256, ESCAPE_LUT.getD i.val 9 = 9
        ∨ ESCAPE_LUT.getD i.val 9 < ESCAPED_LEN)
    ∧ ESCAPE_LUT.length = 256
    ∧ ESCAPED.length = ESCAPED_LEN := by
  refine ⟨by decide, by decide, by decide⟩

end Sailfish
